import Mathlib

/-!
# Verification of the CoinEx ETH/USDT signal monitor

Shallow embedding of `src/index.js`. The file holds two revisions of the
program separated by a marker: revision 1 (lines 1-309) and revision 2
(lines 309-584). Candle series are `List Candle`, stored newest-first as
in the JavaScript (`unshift` prepends the freshest candle). Prices are
rationals; JavaScript floating point is modelled by exact `ℚ` arithmetic.
The wall-clock `timestamp: new Date()` field of emitted signals is not
modelled (real time); the `type`, `price` and `message` fields are.
-/

namespace Coinexdani

/-- OHLCV candle (revision 1, lines 169-176). Timestamps are epoch
milliseconds (`Date.getTime()`), modelled as integers. -/
structure Candle where
  «open» : ℚ
  high : ℚ
  low : ℚ
  close : ℚ
  volume : ℚ
  timestamp : ℤ
deriving DecidableEq, Repr

/-- Signal kind (`type: 'BUY' | 'SELL'`). -/
inductive SignalType where
  | BUY
  | SELL
deriving DecidableEq, Repr

/-- An emitted trading signal (revision 1, lines 119-124 and 131-136).
The wall-clock `timestamp` field is omitted from the embedding. -/
structure Signal where
  type : SignalType
  price : ℚ
  message : String
deriving DecidableEq, Repr

/-- Rationale string of a BUY signal (line 123). -/
def buyMessage : String := "EMA20 cruzó arriba EMA50 en 15M con tendencia alcista en 4H"

/-- Rationale string of a SELL signal (line 135). -/
def sellMessage : String := "EMA20 cruzó abajo EMA50 en 15M con tendencia bajista en 4H"

/-- One smoothing step of the EMA recurrence `ema = close * k + ema * (1 - k)`
(line 74). -/
def emaStep (k : ℚ) (ema : ℚ) (close : ℚ) : ℚ :=
  close * k + ema * (1 - k)

/-- `calculateEMA` (revision 1, lines 58-78). The input is newest-first;
the code reverses it, seeds with the arithmetic mean of the first `period`
closes of the reversed (oldest-first) data, and folds the smoothing step
over the remaining closes. Returns `none` (`null`) when there are fewer
than `period` candles. -/
def calculateEMA (data : List Candle) (period : ℕ) : Option ℚ :=
  if data.length < period then none
  else
    let reversedData := data.reverse
    let sum := ((reversedData.take period).map Candle.close).sum
    let seed := sum / (period : ℚ)
    let k : ℚ := 2 / ((period : ℚ) + 1)
    some (((reversedData.drop period).map Candle.close).foldl (emaStep k) seed)

/-- Definition following the spec's words (§4.2): over a *chronological*
(oldest-first) list of closes, fail when fewer than `period` entries,
else seed with the arithmetic mean of the first `period` closes and fold
`ema = close * k + ema * (1 - k)`, `k = 2/(period+1)`, over every
subsequent close, oldest to newest. Used to compare against
`calculateEMA`. -/
def emaSpec (closes : List ℚ) (period : ℕ) : Option ℚ :=
  if closes.length < period then none
  else
    let k : ℚ := 2 / ((period : ℚ) + 1)
    some ((closes.drop period).foldl (emaStep k) ((closes.take period).sum / (period : ℚ)))

/-- The insufficient-data guard of revision 1's `checkTradingSignals`
(line 83): `ethData['15m'].length < 51 || ethData['4h'].length < 201`. -/
def insufficientData (d15 d4 : List Candle) : Bool :=
  decide (d15.length < 51) || decide (d4.length < 201)

/-- 4-hour trend marker (line 102). -/
inductive Trend where
  | bullish
  | bearish
deriving DecidableEq, Repr

/-- `const trend4h = current4h.close > ema200_4h ? 'bullish' : 'bearish'`
(line 102). -/
def trend4h (current4h : Candle) (ema200_4h : ℚ) : Trend :=
  if current4h.close > ema200_4h then .bullish else .bearish

/-- `checkTradingSignals` (revision 1, lines 81-141), as a function from
the two series (newest-first) and the current signal log to the new log.
JavaScript truthiness: `!ema` on line 96 / 108 aborts both when a value is
`null` (`none`) and when it is the number `0`, so the zero tests mirror
the source's `!` guards. `ethData['15m'].slice(1)` is the tail of the
15-minute series. `signalsHistory.unshift(signal)` prepends. -/
def checkTradingSignals (d15 d4 : List Candle) (log : List Signal) : List Signal :=
  if insufficientData d15 d4 then log
  else
    match d15, d4 with
    | current15m :: tail15, current4h :: tail4 =>
      match calculateEMA (current4h :: tail4) 200, calculateEMA (current15m :: tail15) 20,
            calculateEMA (current15m :: tail15) 50 with
      | some ema200_4h, some ema20_15m, some ema50_15m =>
        if ema200_4h = 0 ∨ ema20_15m = 0 ∨ ema50_15m = 0 then log
        else
          match calculateEMA tail15 20, calculateEMA tail15 50 with
          | some prevEma20, some prevEma50 =>
            if prevEma20 = 0 ∨ prevEma50 = 0 then log
            else if trend4h current4h ema200_4h = .bullish ∧ prevEma20 ≤ prevEma50 ∧
                ema20_15m > ema50_15m then
              { type := .BUY, price := current15m.close, message := buyMessage } :: log
            else if trend4h current4h ema200_4h = .bearish ∧ prevEma20 ≥ prevEma50 ∧
                ema20_15m < ema50_15m then
              { type := .SELL, price := current15m.close, message := sellMessage } :: log
            else log
          | _, _ => log
      | _, _, _ => log
    | _, _ => log

/-- The dedup-insert step of revision 1's WebSocket message handler
(lines 179-187): replace the entry with an equal timestamp in place if one
exists (`findIndex` + indexed assignment), otherwise `unshift` the new
candle to the front. -/
def insertOrReplace (series : List Candle) (candle : Candle) : List Candle :=
  match series.findIdx? (fun vela => vela.timestamp == candle.timestamp) with
  | some existingIndex => series.set existingIndex candle
  | none => candle :: series

/-- The capacity trim of the message handler (lines 189-192): `pop()` the
oldest (last) candle when more than 300 are stored. -/
def trim300 (l : List Candle) : List Candle :=
  if 300 < l.length then l.dropLast else l

/-- The whole candle-upsert step of revision 1's message handler
(lines 178-192): dedup insert followed by the capacity trim. -/
def upsertCandle (series : List Candle) (candle : Candle) : List Candle :=
  trim300 (insertOrReplace series candle)

/-- `signalsHistory.slice(0, 5)` served by `/api/status` as `lastSignals`
(revision 1, line 276). -/
def statusLastSignals (log : List Signal) : List Signal :=
  log.take 5

/-- The `/api/signals` response (revision 1, lines 280-285): the full log
and its length as `count`. -/
def signalsResponse (log : List Signal) : List Signal × ℕ :=
  (log, log.length)

/-- `checkTradingSignals` of revision 2 (lines 385-434). Its sufficiency
guard (line 387) is `< 50 || < 200`. After the guard, line 392-393 read
`trend4h`, `ema200_4h`, `ema20_15m` and `ema50_15m`, all of which are
`const`-declared only later (lines 396-403); accessing a `const` binding
before its declaration throws a `ReferenceError` in JavaScript (temporal
dead zone), so the function aborts there, before any indicator is
computed. The embedding returns `Except.error ()` for the throw. -/
def checkTradingSignalsV2 (d15 d4 : List Candle) (log : List Signal) :
    Except Unit (List Signal) :=
  if d15.length < 50 ∨ d4.length < 200 then .ok log
  else .error ()

/-- Revision 2's WebSocket message handler wraps the signal check in
`try { ... } catch` (lines 458-490): a thrown error is logged and
swallowed, leaving the signal log as it was. -/
def handleSignalCheckV2 (d15 d4 : List Candle) (log : List Signal) : List Signal :=
  match checkTradingSignalsV2 d15 d4 log with
  | .ok log2 => log2
  | .error _ => log

/-- Constant-close candle used for concrete test inputs. -/
def candQ (q : ℚ) : Candle :=
  { «open» := q, high := q, low := q, close := q, volume := 0, timestamp := 0 }

/-- Unit candle at a chosen timestamp, used for concrete test inputs. -/
def candT (t : ℤ) : Candle :=
  { «open» := 1, high := 1, low := 1, close := 1, volume := 0, timestamp := t }

/-! ## Helper lemmas -/

theorem foldl_emaStep_replicate (k c : ℚ) (m : ℕ) :
    (List.replicate m c).foldl (emaStep k) c = c := by
  induction m with
  | zero => rfl
  | succ n ih =>
    rw [List.replicate_succ, List.foldl_cons]
    have h : emaStep k c c = c := by unfold emaStep; ring
    rw [h, ih]

/-- Over any series whose closes all equal `c`, with at least `period ≥ 1`
candles, `calculateEMA` returns exactly `c`. -/
theorem calculateEMA_const (data : List Candle) (c : ℚ) (p : ℕ)
    (hp : 1 ≤ p) (hlen : p ≤ data.length) (hc : ∀ x ∈ data, x.close = c) :
    calculateEMA data p = some c := by
  unfold calculateEMA
  rw [if_neg (by omega)]
  have hrev : ∀ x ∈ data.reverse, x.close = c := fun x hx => hc x (List.mem_reverse.mp hx)
  have htake : (data.reverse.take p).map Candle.close = List.replicate p c := by
    have hall : ∀ b ∈ (data.reverse.take p).map Candle.close, b = c := by
      intro b hb
      obtain ⟨x, hx, rfl⟩ := List.mem_map.mp hb
      exact hrev x (List.mem_of_mem_take hx)
    have h := List.eq_replicate_of_mem hall
    rwa [List.length_map, List.length_take, List.length_reverse,
      min_eq_left hlen] at h
  have hdrop : (data.reverse.drop p).map Candle.close
      = List.replicate (data.length - p) c := by
    have hall : ∀ b ∈ (data.reverse.drop p).map Candle.close, b = c := by
      intro b hb
      obtain ⟨x, hx, rfl⟩ := List.mem_map.mp hb
      exact hrev x (List.mem_of_mem_drop hx)
    have h := List.eq_replicate_of_mem hall
    rwa [List.length_map, List.length_drop, List.length_reverse] at h
  have hp0 : (p : ℚ) ≠ 0 := Nat.cast_ne_zero.mpr (by omega)
  have hseed : ((data.reverse.take p).map Candle.close).sum / (p : ℚ) = c := by
    rw [htake, List.sum_replicate, nsmul_eq_mul, mul_div_cancel_left₀ c hp0]
  simp only [hdrop, hseed, foldl_emaStep_replicate]

/-! ## C3: calculateEMA agrees with the spec's chronological description -/

/-- C3. `calculateEMA` returns `none` exactly when the series has fewer
than `period` candles, and otherwise equals the spec's description:
reverse the newest-first input to chronological order, seed with the
arithmetic mean of the `period` oldest closes, and fold the smoothing
step over every subsequent close, oldest to newest. -/
theorem calculateEMA_matches_spec (data : List Candle) (p : ℕ) :
    calculateEMA data p = emaSpec ((data.reverse).map Candle.close) p ∧
      (calculateEMA data p = none ↔ data.length < p) := by
  constructor
  · unfold calculateEMA emaSpec
    by_cases h : data.length < p
    · rw [if_pos h, if_pos (by simpa using h)]
    · rw [if_neg h, if_neg (by simpa using h)]
      simp only [← List.map_take, ← List.map_drop]
  · unfold calculateEMA
    by_cases h : data.length < p
    · simp [h]
    · simp [h]

/-! ## C7: constant-close series give back the constant -/

/-- C7. For every close value `c`, period `p ≥ 1` and series of at least
`p` candles whose closes all equal `c`, `calculateEMA` returns exactly
`c` (exact, in rational arithmetic). -/
theorem calculateEMA_constant_close (data : List Candle) (c : ℚ) (p : ℕ)
    (hp : 1 ≤ p) (hlen : p ≤ data.length) (hc : ∀ x ∈ data, x.close = c) :
    calculateEMA data p = some c :=
  calculateEMA_const data c p hp hlen hc

/-- Witness for C7 at `p = 2` over two candles that close at 3. -/
theorem calculateEMA_constant_close_witness :
    1 ≤ 2 ∧ 2 ≤ [candQ 3, candQ 3].length ∧
      (∀ x ∈ [candQ 3, candQ 3], x.close = 3) ∧
      calculateEMA [candQ 3, candQ 3] 2 = some 3 :=
  ⟨by decide, by decide, by decide,
    calculateEMA_constant_close [candQ 3, candQ 3] 3 2 (by decide) (by decide)
      (by decide)⟩

/-! ## C2: the insufficient-data guard -/

theorem insufficientData_eq_false (d15 d4 : List Candle) :
    insufficientData d15 d4 = false ↔ 51 ≤ d15.length ∧ 201 ≤ d4.length := by
  unfold insufficientData
  constructor
  · intro h
    simp only [Bool.or_eq_false_iff, decide_eq_false_iff_not, not_lt] at h
    omega
  · intro h
    simp only [Bool.or_eq_false_iff, decide_eq_false_iff_not, not_lt]
    omega

theorem checkTradingSignals_of_insufficient (d15 d4 : List Candle) (log : List Signal)
    (h : insufficientData d15 d4 = true) : checkTradingSignals d15 d4 log = log := by
  unfold checkTradingSignals
  simp [h]

theorem calculateEMA_none_iff (data : List Candle) (p : ℕ) :
    calculateEMA data p = none ↔ data.length < p := by
  unfold calculateEMA
  by_cases h : data.length < p
  · simp [h]
  · simp [h]

/-- C2 (amended). `checkTradingSignals` skips evaluation exactly when the
15-minute series has fewer than 51 candles or the 4-hour series has fewer
than 201 candles: the guard is off precisely at 51/201 candles or more,
and whenever the guard is on no signal is emitted. -/
theorem checkTradingSignals_guard (d15 d4 : List Candle) (log : List Signal) :
    (insufficientData d15 d4 = false ↔ 51 ≤ d15.length ∧ 201 ≤ d4.length) ∧
      (insufficientData d15 d4 = true → checkTradingSignals d15 d4 log = log) :=
  ⟨insufficientData_eq_false d15 d4, checkTradingSignals_of_insufficient d15 d4 log⟩

/-- Witness for C2's amended guard statement on empty series. -/
theorem checkTradingSignals_guard_witness :
    insufficientData [] [] = true ∧ checkTradingSignals [] [] [] = [] := by
  have h := checkTradingSignals_guard [] [] []
  exact ⟨by decide, h.2 (by decide)⟩

/-- Counterexample to C2 as stated: with 52 15-minute candles and 200
4-hour candles (so at least 50 and at least 200), the claim says the
insufficient-data skip is not taken, but the code's guard
(`length < 51 || length < 201`, line 83) fires and no evaluation
happens — the log stays empty. -/
theorem checkTradingSignals_guard_cex :
    50 ≤ (List.replicate 52 (candQ 1)).length ∧
      200 ≤ (List.replicate 200 (candQ 1)).length ∧
      insufficientData (List.replicate 52 (candQ 1)) (List.replicate 200 (candQ 1)) = true ∧
      checkTradingSignals (List.replicate 52 (candQ 1)) (List.replicate 200 (candQ 1)) []
        = [] := by
  have hg : insufficientData (List.replicate 52 (candQ 1)) (List.replicate 200 (candQ 1))
      = true := by
    unfold insufficientData
    rw [List.length_replicate, List.length_replicate]
    decide
  refine ⟨?_, ?_, hg, ?_⟩
  · rw [List.length_replicate]
    omega
  · rw [List.length_replicate]
  · unfold checkTradingSignals
    rw [hg]
    rw [if_pos rfl]

/-! ## C4 and C5: upsert invariants -/

theorem set_self_of_getElem (l : List α) (i : ℕ) (a : α) (hi : i < l.length)
    (h : l[i] = a) : l.set i a = l := by
  apply List.ext_getElem (by simp)
  intro j h1 h2
  rcases eq_or_ne i j with rfl | hne
  · rw [List.getElem_set_self]
    exact h.symm
  · rw [List.getElem_set_ne hne]

/-- C4. Starting from a series of at most 300 candles, an upsert leaves at
most 300 candles; and when a fresh-timestamp candle is upserted into a
series of exactly 300 candles, the result is the new candle prepended
with the oldest (last) entry discarded, keeping the length at 300. -/
theorem upsertCandle_capacity (series : List Candle) (c : Candle)
    (h300 : series.length ≤ 300) :
    (upsertCandle series c).length ≤ 300 ∧
      (series.length = 300 → c.timestamp ∉ series.map Candle.timestamp →
        upsertCandle series c = c :: series.dropLast ∧
          (upsertCandle series c).length = 300) := by
  cases hfind : series.findIdx? (fun vela => vela.timestamp == c.timestamp) with
  | some i =>
    have heq : upsertCandle series c = series.set i c := by
      unfold upsertCandle insertOrReplace trim300
      rw [hfind]
      rw [if_neg (by rw [List.length_set]; omega)]
    refine ⟨by rw [heq, List.length_set]; omega, ?_⟩
    intro _ h2
    exfalso
    obtain ⟨hi, hp, -⟩ := List.findIdx?_eq_some_iff_getElem.mp hfind
    exact h2 (List.mem_map.mpr ⟨series[i], List.getElem_mem hi, by simpa using hp⟩)
  | none =>
    have heq : upsertCandle series c = trim300 (c :: series) := by
      unfold upsertCandle insertOrReplace
      rw [hfind]
    by_cases hcap : series.length = 300
    · have hne : series ≠ [] := by
        intro h
        rw [h] at hcap
        simp at hcap
      have hlen : (c :: series).length = 301 := by
        rw [List.length_cons, hcap]
      have htrim : trim300 (c :: series) = (c :: series).dropLast := by
        unfold trim300
        rw [if_pos (by omega)]
      have hres : upsertCandle series c = c :: series.dropLast := by
        rw [heq, htrim, List.dropLast_cons_of_ne_nil hne]
      have hreslen : (upsertCandle series c).length = 300 := by
        rw [hres, List.length_cons, List.length_dropLast, hcap]
      exact ⟨by omega, fun _ _ => ⟨hres, hreslen⟩⟩
    · have htrim : trim300 (c :: series) = c :: series := by
        unfold trim300
        rw [if_neg (by rw [List.length_cons]; omega)]
      refine ⟨?_, fun h1 _ => absurd h1 hcap⟩
      rw [heq, htrim, List.length_cons]
      omega

/-- Witness for C4: upserting a timestamp-7 candle into a full series of
300 timestamp-0 candles evicts exactly the oldest entry. -/
theorem upsertCandle_capacity_witness :
    (upsertCandle (List.replicate 300 (candQ 1)) (candT 7)).length ≤ 300 ∧
      upsertCandle (List.replicate 300 (candQ 1)) (candT 7)
        = candT 7 :: (List.replicate 300 (candQ 1)).dropLast ∧
      (upsertCandle (List.replicate 300 (candQ 1)) (candT 7)).length = 300 := by
  have h := upsertCandle_capacity (List.replicate 300 (candQ 1)) (candT 7)
    (by rw [List.length_replicate])
  have hmem : (candT 7).timestamp ∉ (List.replicate 300 (candQ 1)).map Candle.timestamp := by
    intro hm
    obtain ⟨x, hx, hts⟩ := List.mem_map.mp hm
    rw [List.eq_of_mem_replicate hx] at hts
    exact absurd hts (by decide)
  have h2 := h.2 (by rw [List.length_replicate]) hmem
  exact ⟨h.1, h2.1, h2.2⟩

/-- C5. On a series with pairwise-distinct timestamps (and within the
300-candle capacity), upserting a candle whose timestamp is already
present replaces that entry in place: the result is `series.set i c` for
the unique matching index, keeping length and the timestamp sequence
(hence all other entries' positions) unchanged; and any upsert preserves
timestamp uniqueness. -/
theorem upsertCandle_replace_in_place (series : List Candle) (c : Candle)
    (hnd : (series.map Candle.timestamp).Nodup) (h300 : series.length ≤ 300) :
    (c.timestamp ∈ series.map Candle.timestamp →
        ∃ i, ∃ hi : i < series.length,
          (series.get ⟨i, hi⟩).timestamp = c.timestamp ∧
            upsertCandle series c = series.set i c ∧
            (upsertCandle series c).length = series.length ∧
            (upsertCandle series c).map Candle.timestamp
              = series.map Candle.timestamp) ∧
      ((upsertCandle series c).map Candle.timestamp).Nodup := by
  constructor
  · intro hmem
    obtain ⟨x, hx, hts⟩ := List.mem_map.mp hmem
    have hex : ∃ y, y ∈ series ∧ (y.timestamp == c.timestamp) = true :=
      ⟨x, hx, by simp [hts]⟩
    have hfind := List.findIdx?_eq_some_of_exists hex
    obtain ⟨hi, hp, -⟩ := List.findIdx?_eq_some_iff_getElem.mp hfind
    have heq : upsertCandle series c
        = series.set (series.findIdx (fun vela => vela.timestamp == c.timestamp)) c := by
      unfold upsertCandle insertOrReplace trim300
      rw [hfind]
      rw [if_neg (by rw [List.length_set]; omega)]
    refine ⟨_, hi, by simpa using hp, heq, ?_, ?_⟩
    · rw [heq, List.length_set]
    · rw [heq, List.map_set]
      exact set_self_of_getElem _ _ _ (by simpa using hi)
        (by rw [List.getElem_map]; simpa using hp)
  · cases hfind : series.findIdx? (fun vela => vela.timestamp == c.timestamp) with
    | some i =>
      obtain ⟨hi, hp, -⟩ := List.findIdx?_eq_some_iff_getElem.mp hfind
      have heq : upsertCandle series c = series.set i c := by
        unfold upsertCandle insertOrReplace trim300
        rw [hfind]
        rw [if_neg (by rw [List.length_set]; omega)]
      rw [heq, List.map_set]
      rw [set_self_of_getElem _ _ _ (by simpa using hi) (by rw [List.getElem_map]; simpa using hp)]
      exact hnd
    | none =>
      have hall := List.findIdx?_eq_none_iff.mp hfind
      have hnotmem : c.timestamp ∉ series.map Candle.timestamp := by
        intro hm
        obtain ⟨x, hx, hts⟩ := List.mem_map.mp hm
        have := hall x hx
        rw [hts] at this
        simp at this
      have hcons : ((c :: series).map Candle.timestamp).Nodup := by
        rw [List.map_cons, List.nodup_cons]
        exact ⟨hnotmem, hnd⟩
      unfold upsertCandle insertOrReplace trim300
      rw [hfind]
      by_cases hlen : 300 < (c :: series).length
      · rw [if_pos hlen, List.map_dropLast]
        exact List.Nodup.sublist (List.dropLast_sublist _) hcons
      · rw [if_neg hlen]
        exact hcons

/-- Witness for C5: replacing the single entry of a one-candle series by a
new candle with the same timestamp. -/
theorem upsertCandle_replace_in_place_witness :
    upsertCandle [candQ 1] (candQ 2) = [candQ 2] ∧
      (upsertCandle [candQ 1] (candQ 2)).length = 1 ∧
      ((upsertCandle [candQ 1] (candQ 2)).map Candle.timestamp).Nodup := by
  have h := upsertCandle_replace_in_place [candQ 1] (candQ 2) (by decide) (by decide)
  obtain ⟨i, hi, -, heq, hlen, -⟩ := h.1 (by decide)
  have hi1 : i < 1 := by simpa using hi
  have hi0 : i = 0 := by omega
  subst hi0
  exact ⟨heq, hlen, h.2⟩

/-! ## Evaluation helpers for checkTradingSignals -/

/-- Unfolding lemma: once the guard passes and all five EMAs are defined,
`checkTradingSignals` reduces to the crossover decision. -/
theorem checkTradingSignals_eval (c15 c4 : Candle) (t15 t4 : List Candle)
    (log : List Signal) (e200 e20 e50 p20 p50 : ℚ)
    (hguard : insufficientData (c15 :: t15) (c4 :: t4) = false)
    (he200 : calculateEMA (c4 :: t4) 200 = some e200)
    (he20 : calculateEMA (c15 :: t15) 20 = some e20)
    (he50 : calculateEMA (c15 :: t15) 50 = some e50)
    (hp20 : calculateEMA t15 20 = some p20)
    (hp50 : calculateEMA t15 50 = some p50) :
    checkTradingSignals (c15 :: t15) (c4 :: t4) log =
      if e200 = 0 ∨ e20 = 0 ∨ e50 = 0 then log
      else if p20 = 0 ∨ p50 = 0 then log
      else if trend4h c4 e200 = .bullish ∧ p20 ≤ p50 ∧ e20 > e50 then
        { type := .BUY, price := c15.close, message := buyMessage } :: log
      else if trend4h c4 e200 = .bearish ∧ p20 ≥ p50 ∧ e20 < e50 then
        { type := .SELL, price := c15.close, message := sellMessage } :: log
      else log := by
  unfold checkTradingSignals
  rw [hguard]
  rw [if_neg (by simp)]
  simp only [he200, he20, he50, hp20, hp50]

/-- Any evaluation either leaves the log unchanged or prepends exactly
one signal. -/
theorem checkTradingSignals_head_cases (d15 d4 : List Candle) (log : List Signal) :
    checkTradingSignals d15 d4 log = log ∨
      ∃ s, checkTradingSignals d15 d4 log = s :: log := by
  unfold checkTradingSignals
  repeat' split
  all_goals try exact Or.inl rfl
  all_goals exact Or.inr ⟨_, rfl⟩

/-! ## C1: the BUY condition -/

/-- C1. When the guard passes and all five EMAs are defined and nonzero
(so evaluation proceeds), `checkTradingSignals` prepends exactly one BUY
signal, priced at the most recent 15-minute close, if and only if the
latest 4-hour close exceeds `ema200_4h`, `prevEma20 ≤ prevEma50`, and
`ema20_15m > ema50_15m`. -/
theorem checkTradingSignals_buy_iff (c15 c4 : Candle) (t15 t4 : List Candle)
    (log : List Signal) (e200 e20 e50 p20 p50 : ℚ)
    (h15 : 51 ≤ (c15 :: t15).length) (h4 : 201 ≤ (c4 :: t4).length)
    (he200 : calculateEMA (c4 :: t4) 200 = some e200) (hz200 : e200 ≠ 0)
    (he20 : calculateEMA (c15 :: t15) 20 = some e20) (hz20 : e20 ≠ 0)
    (he50 : calculateEMA (c15 :: t15) 50 = some e50) (hz50 : e50 ≠ 0)
    (hp20 : calculateEMA t15 20 = some p20) (hzp20 : p20 ≠ 0)
    (hp50 : calculateEMA t15 50 = some p50) (hzp50 : p50 ≠ 0) :
    (checkTradingSignals (c15 :: t15) (c4 :: t4) log
        = { type := SignalType.BUY, price := c15.close, message := buyMessage } :: log)
      ↔ (c4.close > e200 ∧ p20 ≤ p50 ∧ e20 > e50) := by
  have hguard : insufficientData (c15 :: t15) (c4 :: t4) = false :=
    (insufficientData_eq_false _ _).mpr ⟨h15, h4⟩
  rw [checkTradingSignals_eval c15 c4 t15 t4 log e200 e20 e50 p20 p50 hguard
    he200 he20 he50 hp20 hp50]
  rw [if_neg (by simp [hz200, hz20, hz50]), if_neg (by simp [hzp20, hzp50])]
  constructor
  · intro hres
    by_cases hb : trend4h c4 e200 = .bullish ∧ p20 ≤ p50 ∧ e20 > e50
    · refine ⟨?_, hb.2.1, hb.2.2⟩
      have hbt := hb.1
      unfold trend4h at hbt
      by_cases hgt : c4.close > e200
      · exact hgt
      · rw [if_neg hgt] at hbt
        exact absurd hbt (by simp)
    · rw [if_neg hb] at hres
      by_cases hs : trend4h c4 e200 = .bearish ∧ p20 ≥ p50 ∧ e20 < e50
      · rw [if_pos hs] at hres
        exfalso
        simp only [List.cons.injEq, Signal.mk.injEq] at hres
        exact absurd hres.1.1 (by simp)
      · rw [if_neg hs] at hres
        exfalso
        have hlen := congrArg List.length hres
        simp at hlen
  · intro hcond
    have hb : trend4h c4 e200 = .bullish ∧ p20 ≤ p50 ∧ e20 > e50 := by
      refine ⟨?_, hcond.2.1, hcond.2.2⟩
      unfold trend4h
      rw [if_pos hcond.1]
    rw [if_pos hb]

theorem closes_const_replicate (q : ℚ) (n : ℕ) :
    ∀ x ∈ List.replicate n (candQ q), x.close = q := by
  intro x hx
  rw [List.eq_of_mem_replicate hx]
  rfl

theorem closes_const_cons_replicate (q : ℚ) (n : ℕ) :
    ∀ x ∈ candQ q :: List.replicate n (candQ q), x.close = q := by
  intro x hx
  rcases List.mem_cons.mp hx with rfl | hx
  · rfl
  · rw [List.eq_of_mem_replicate hx]
    rfl

/-- Witness for C1 on constant series (51 closes at 1, 201 4-hour closes
at 2): every hypothesis holds and the BUY condition is false, so no BUY
signal is prepended. -/
theorem checkTradingSignals_buy_iff_witness :
    calculateEMA (candQ 2 :: List.replicate 200 (candQ 2)) 200 = some 2 ∧
      calculateEMA (candQ 1 :: List.replicate 50 (candQ 1)) 20 = some 1 ∧
      calculateEMA (List.replicate 50 (candQ 1)) 50 = some 1 ∧
      ((checkTradingSignals (candQ 1 :: List.replicate 50 (candQ 1))
          (candQ 2 :: List.replicate 200 (candQ 2)) []
        = [{ type := SignalType.BUY, price := (candQ 1).close, message := buyMessage }])
        ↔ ((candQ 2).close > 2 ∧ (1 : ℚ) ≤ 1 ∧ (1 : ℚ) > 1)) := by
  have he200 : calculateEMA (candQ 2 :: List.replicate 200 (candQ 2)) 200 = some 2 :=
    calculateEMA_const _ 2 200 (by omega)
      (by rw [List.length_cons, List.length_replicate]; omega)
      (closes_const_cons_replicate 2 200)
  have he20 : calculateEMA (candQ 1 :: List.replicate 50 (candQ 1)) 20 = some 1 :=
    calculateEMA_const _ 1 20 (by omega)
      (by rw [List.length_cons, List.length_replicate]; omega)
      (closes_const_cons_replicate 1 50)
  have he50 : calculateEMA (candQ 1 :: List.replicate 50 (candQ 1)) 50 = some 1 :=
    calculateEMA_const _ 1 50 (by omega)
      (by rw [List.length_cons, List.length_replicate]; omega)
      (closes_const_cons_replicate 1 50)
  have hp20 : calculateEMA (List.replicate 50 (candQ 1)) 20 = some 1 :=
    calculateEMA_const _ 1 20 (by omega) (by rw [List.length_replicate]; omega)
      (closes_const_replicate 1 50)
  have hp50 : calculateEMA (List.replicate 50 (candQ 1)) 50 = some 1 :=
    calculateEMA_const _ 1 50 (by omega) (by rw [List.length_replicate])
      (closes_const_replicate 1 50)
  refine ⟨he200, he20, hp50, ?_⟩
  exact checkTradingSignals_buy_iff (candQ 1) (candQ 2) (List.replicate 50 (candQ 1))
    (List.replicate 200 (candQ 2)) [] 2 1 1 1 1
    (by rw [List.length_cons, List.length_replicate])
    (by rw [List.length_cons, List.length_replicate])
    he200 (by norm_num) he20 (by norm_num) he50 (by norm_num)
    hp20 (by norm_num) hp50 (by norm_num)

/-- EMA of a series whose newest candle is a lone spike over an otherwise
constant-close history: one smoothing step applied to the constant. -/
theorem calculateEMA_spike (t : List Candle) (spike : Candle) (c : ℚ) (p : ℕ)
    (hp : 1 ≤ p) (hlen : p ≤ t.length) (hc : ∀ x ∈ t, x.close = c) :
    calculateEMA (spike :: t) p
      = some (emaStep (2 / ((p : ℚ) + 1)) c spike.close) := by
  unfold calculateEMA
  rw [if_neg (by rw [List.length_cons]; omega)]
  have hrev : ∀ x ∈ t.reverse, x.close = c := fun x hx => hc x (List.mem_reverse.mp hx)
  have htake : ((spike :: t).reverse.take p).map Candle.close = List.replicate p c := by
    rw [List.reverse_cons, List.take_append_of_le_length (by rw [List.length_reverse]; omega)]
    have hall : ∀ b ∈ (t.reverse.take p).map Candle.close, b = c := by
      intro b hb
      obtain ⟨x, hx, rfl⟩ := List.mem_map.mp hb
      exact hrev x (List.mem_of_mem_take hx)
    have h := List.eq_replicate_of_mem hall
    rwa [List.length_map, List.length_take, List.length_reverse, min_eq_left hlen] at h
  have hdrop : ((spike :: t).reverse.drop p).map Candle.close
      = List.replicate (t.length - p) c ++ [spike.close] := by
    rw [List.reverse_cons, List.drop_append_of_le_length (by rw [List.length_reverse]; omega),
      List.map_append]
    congr 1
    have hall : ∀ b ∈ (t.reverse.drop p).map Candle.close, b = c := by
      intro b hb
      obtain ⟨x, hx, rfl⟩ := List.mem_map.mp hb
      exact hrev x (List.mem_of_mem_drop hx)
    have h := List.eq_replicate_of_mem hall
    rwa [List.length_map, List.length_drop, List.length_reverse] at h
  have hp0 : (p : ℚ) ≠ 0 := Nat.cast_ne_zero.mpr (by omega)
  have hseed : (((spike :: t).reverse.take p).map Candle.close).sum / (p : ℚ) = c := by
    rw [htake, List.sum_replicate, nsmul_eq_mul, mul_div_cancel_left₀ c hp0]
  simp only [hdrop, hseed, List.foldl_append, foldl_emaStep_replicate, List.foldl_cons,
    List.foldl_nil]

/-- Concrete non-vacuity check: a 15-minute series spiking to 5 over a
flat history of 1s, with the 4-hour close at 2 above its EMA200, fires
exactly one BUY signal priced at the spike close. -/
theorem checkTradingSignals_buy_example :
    checkTradingSignals (candQ 5 :: List.replicate 50 (candQ 1))
        (candQ 2 :: List.replicate 200 (candQ 1)) []
      = [{ type := SignalType.BUY, price := 5, message := buyMessage }] := by
  have he200 := calculateEMA_spike (List.replicate 200 (candQ 1)) (candQ 2) 1 200
    (by omega) (by rw [List.length_replicate]) (closes_const_replicate 1 200)
  have he20 := calculateEMA_spike (List.replicate 50 (candQ 1)) (candQ 5) 1 20
    (by omega) (by rw [List.length_replicate]; omega) (closes_const_replicate 1 50)
  have he50 := calculateEMA_spike (List.replicate 50 (candQ 1)) (candQ 5) 1 50
    (by omega) (by rw [List.length_replicate]) (closes_const_replicate 1 50)
  have hp20 : calculateEMA (List.replicate 50 (candQ 1)) 20 = some 1 :=
    calculateEMA_const _ 1 20 (by omega) (by rw [List.length_replicate]; omega)
      (closes_const_replicate 1 50)
  have hp50 : calculateEMA (List.replicate 50 (candQ 1)) 50 = some 1 :=
    calculateEMA_const _ 1 50 (by omega) (by rw [List.length_replicate])
      (closes_const_replicate 1 50)
  rw [checkTradingSignals_eval _ _ _ _ _ _ _ _ _ _
    ((insufficientData_eq_false _ _).mpr
      ⟨by rw [List.length_cons, List.length_replicate],
       by rw [List.length_cons, List.length_replicate]⟩)
    he200 he20 he50 hp20 hp50]
  rw [if_neg (by unfold emaStep candQ; push_cast; norm_num),
    if_neg (by norm_num)]
  rw [if_pos ⟨by unfold trend4h; rw [if_pos (by unfold emaStep candQ; push_cast; norm_num)],
    le_refl 1, by unfold emaStep candQ; push_cast; norm_num⟩]
  rfl

/-! ## C6: at most one signal per evaluation -/

/-- C6. A single evaluation emits at most one signal: revision 1 either
leaves the log unchanged or prepends exactly one signal (BUY is checked
first, SELL only in the `else` branch), and revision 2 either throws or
leaves the log unchanged — so BUY and SELL are never both emitted. -/
theorem checkTradingSignals_at_most_one (d15 d4 : List Candle) (log : List Signal) :
    (checkTradingSignals d15 d4 log = log ∨
        ∃ s, checkTradingSignals d15 d4 log = s :: log) ∧
      (checkTradingSignalsV2 d15 d4 log = Except.error () ∨
        checkTradingSignalsV2 d15 d4 log = Except.ok log) := by
  refine ⟨checkTradingSignals_head_cases d15 d4 log, ?_⟩
  unfold checkTradingSignalsV2
  by_cases h : d15.length < 50 ∨ d4.length < 200
  · rw [if_pos h]
    exact Or.inr rfl
  · rw [if_neg h]
    exact Or.inl rfl

/-! ## C8: signal log ordering and the query surface -/

/-- C8. Signals are prepended to the log; the status query's last-signals
field is the 5-element prefix of the log (the whole log when shorter),
and the signals query returns the full log with its length as count. -/
theorem signalLog_order (d15 d4 : List Candle) (log : List Signal) :
    (checkTradingSignals d15 d4 log = log ∨
        ∃ s, checkTradingSignals d15 d4 log = s :: log) ∧
      statusLastSignals log ++ log.drop 5 = log ∧
      (statusLastSignals log).length = min 5 log.length ∧
      signalsResponse log = (log, log.length) := by
  refine ⟨checkTradingSignals_head_cases d15 d4 log, ?_, ?_, rfl⟩
  · exact List.take_append_drop 5 log
  · unfold statusLastSignals
    exact List.length_take 5 log

/-! ## C9: revision 2 throws once data is sufficient -/

/-- C9. In revision 2, whenever the sufficiency precondition holds (at
least 50 15-minute and 200 4-hour candles), `checkTradingSignals` throws
before computing any indicator (temporal-dead-zone read of `trend4h` and
the EMA consts), and the message handler's catch swallows the error, so
the signal log never changes. -/
theorem checkTradingSignalsV2_throws (d15 d4 : List Candle) (log : List Signal)
    (h15 : 50 ≤ d15.length) (h4 : 200 ≤ d4.length) :
    checkTradingSignalsV2 d15 d4 log = Except.error () ∧
      handleSignalCheckV2 d15 d4 log = log := by
  have herr : checkTradingSignalsV2 d15 d4 log = Except.error () := by
    unfold checkTradingSignalsV2
    rw [if_neg (by omega)]
  refine ⟨herr, ?_⟩
  unfold handleSignalCheckV2
  rw [herr]

/-- Witness for C9 at exactly 50 and 200 candles. -/
theorem checkTradingSignalsV2_throws_witness :
    checkTradingSignalsV2 (List.replicate 50 (candQ 1)) (List.replicate 200 (candQ 1)) []
        = Except.error () ∧
      handleSignalCheckV2 (List.replicate 50 (candQ 1)) (List.replicate 200 (candQ 1)) []
        = [] :=
  checkTradingSignalsV2_throws (List.replicate 50 (candQ 1)) (List.replicate 200 (candQ 1))
    [] (by rw [List.length_replicate]) (by rw [List.length_replicate])

/-! ## C10: an exactly-zero indicator aborts the evaluation -/

/-- C10. If any of the five indicator values is the defined value `0`,
the JavaScript truthiness test `!ema` treats it like the missing value
and `checkTradingSignals` aborts with no signal. -/
theorem checkTradingSignals_zero_aborts (d15 d4 : List Candle) (log : List Signal)
    (h : calculateEMA d4 200 = some 0 ∨ calculateEMA d15 20 = some 0 ∨
      calculateEMA d15 50 = some 0 ∨ calculateEMA (d15.drop 1) 20 = some 0 ∨
      calculateEMA (d15.drop 1) 50 = some 0) :
    checkTradingSignals d15 d4 log = log := by
  by_cases hguard : insufficientData d15 d4 = true
  · exact checkTradingSignals_of_insufficient d15 d4 log hguard
  · have hguard' : insufficientData d15 d4 = false := by
      cases hb : insufficientData d15 d4
      · rfl
      · exact absurd hb hguard
    obtain ⟨hl15, hl4⟩ := (insufficientData_eq_false d15 d4).mp hguard'
    match d15, d4 with
    | c15 :: t15, c4 :: t4 =>
      simp only [List.drop_succ_cons, List.drop_zero] at h
      have hs200 : ¬ calculateEMA (c4 :: t4) 200 = none := by
        rw [calculateEMA_none_iff]
        omega
      have hs20 : ¬ calculateEMA (c15 :: t15) 20 = none := by
        rw [calculateEMA_none_iff]
        omega
      have hs50 : ¬ calculateEMA (c15 :: t15) 50 = none := by
        rw [calculateEMA_none_iff]
        omega
      have hl15' : 50 ≤ t15.length := by
        rw [List.length_cons] at hl15
        omega
      have hsp20 : ¬ calculateEMA t15 20 = none := by
        rw [calculateEMA_none_iff]
        omega
      have hsp50 : ¬ calculateEMA t15 50 = none := by
        rw [calculateEMA_none_iff]
        omega
      obtain ⟨e200, he200⟩ := Option.ne_none_iff_exists'.mp hs200
      obtain ⟨e20, he20⟩ := Option.ne_none_iff_exists'.mp hs20
      obtain ⟨e50, he50⟩ := Option.ne_none_iff_exists'.mp hs50
      obtain ⟨p20, hp20⟩ := Option.ne_none_iff_exists'.mp hsp20
      obtain ⟨p50, hp50⟩ := Option.ne_none_iff_exists'.mp hsp50
      rw [checkTradingSignals_eval c15 c4 t15 t4 log e200 e20 e50 p20 p50 hguard'
        he200 he20 he50 hp20 hp50]
      by_cases hz : e200 = 0 ∨ e20 = 0 ∨ e50 = 0
      · rw [if_pos hz]
      · rw [if_neg hz]
        have hzp : p20 = 0 ∨ p50 = 0 := by
          rcases h with h | h | h | h | h
          · exact absurd (by rw [he200] at h; exact Option.some_inj.mp h) (by tauto)
          · exact absurd (by rw [he20] at h; exact Option.some_inj.mp h) (by tauto)
          · exact absurd (by rw [he50] at h; exact Option.some_inj.mp h) (by tauto)
          · exact Or.inl (by rw [hp20] at h; exact Option.some_inj.mp h)
          · exact Or.inr (by rw [hp50] at h; exact Option.some_inj.mp h)
        rw [if_pos hzp]

/-- Witness for C10: all-zero 15-minute closes give `ema20_15m = 0`
exactly, and the evaluation aborts. -/
theorem checkTradingSignals_zero_aborts_witness :
    calculateEMA (List.replicate 51 (candQ 0)) 20 = some 0 ∧
      checkTradingSignals (List.replicate 51 (candQ 0)) (List.replicate 201 (candQ 1)) []
        = [] := by
  have h20 : calculateEMA (List.replicate 51 (candQ 0)) 20 = some 0 :=
    calculateEMA_const _ 0 20 (by omega) (by simp) (closes_const_replicate 0 51)
  exact ⟨h20, checkTradingSignals_zero_aborts _ _ [] (Or.inr (Or.inl h20))⟩

end Coinexdani
